import Mathlib

/-!
Shallow embedding of `src/server/server.js`: an Express server exposing an
annotation store backed by a single redis hash (`REDIS_ANNOTATIONS_KEY`),
plus an optional best-effort broadcast of change events over a websocket to
Lightcable.

Modelling conventions:
  - the redis hash is a finite association list from field (the annotation id)
    to the stored string; redis field order is unspecified, matching the
    unordered iteration over `Object.keys` in the GET handler;
  - JS numbers carried in `lngLat` are modelled as integers: the handlers never
    compute with them, they are passed through unchanged;
  - `Date.now()` is a `now : Nat` parameter given to each handler;
  - a stored string is either `Payload.jsonText v` (a string that is valid
    JSON and parses to the value `v` — any JSON value, not only record
    objects, since redis may hold externally written data) or
    `Payload.notJson s` (a string that is not valid JSON, on which
    `JSON.parse` throws); the store's own writes always store
    `Payload.jsonText (recordJson o)`, the text `JSON.stringify(o)` for a
    record object `o`;
  - the GET handler's `{ id, ...obj }` is modelled with full JS object-spread
    semantics: spreading a parsed object contributes its own enumerable
    properties, an own `id` key overwriting the field-name shorthand;
    spreading an array or a string contributes index keys; spreading null, a
    boolean or a number contributes nothing;
  - a missing or otherwise falsy `id` in the POST body is modelled as the
    empty string (the code only tests `!id`); a `lngLat` that is not an array
    is modelled as `none`; `clientId` is `none` when absent and may be
    `some ""` (also falsy in JS, since the code tests `clientId || null`);
  - each handler returns its HTTP-level outcome, the redis hash after the
    call, the list of objects handed to `broadcastToLightcable`, and the trace
    of redis commands it issued, in order.
-/

namespace MapSync

/-- The record object persisted as the hash value and echoed in responses:
`{ lngLat, updatedAt: Date.now(), clientId: clientId || null }`. -/
structure RecordObj where
  lngLat : List Int
  updatedAt : Nat
  clientId : Option String
  deriving DecidableEq, Repr

/-- A JSON value, as `JSON.parse` can produce it: null, a boolean, a number,
a string, an array, or an object given as its fields in JS enumeration
order. Numbers are modelled as integers, as everywhere in this development. -/
inductive Json where
  | nullV
  | boolV (b : Bool)
  | numV (n : Int)
  | strV (s : String)
  | arrV (xs : List Json)
  | objV (fields : List (String × Json))
  deriving Repr

/-- The JSON value of an optional string: the string, or null. -/
def optStrJson : Option String → Json
  | none => .nullV
  | some s => .strV s

/-- The JSON value of `JSON.stringify(obj)` for the object
`{ lngLat, updatedAt, clientId }` the write handlers build: an object with
exactly these three keys, in literal order. -/
def recordJson (o : RecordObj) : Json :=
  .objV [("lngLat", .arrV (o.lngLat.map Json.numV)),
         ("updatedAt", .numV (o.updatedAt : Int)),
         ("clientId", optStrJson o.clientId)]

/-- A string stored in the redis hash: `jsonText v` is a string that is valid
JSON and parses to the value `v` (object fields listed in JS enumeration
order); `notJson s` is a string that is not valid JSON, on which `JSON.parse`
throws. The store's own writes always store `jsonText (recordJson o)`. -/
inductive Payload where
  | jsonText (v : Json)
  | notJson (s : String)
  deriving Repr

/-- `JSON.parse` wrapped in the GET handler's try/catch: a valid-JSON string
parses to its value; anything else throws, which the handler turns into
`null`. -/
def parsePayload : Payload → Option Json
  | .jsonText v => some v
  | .notJson _ => none

/-- JS truthiness of the stored string (`!!existingRaw` in the PUT handler):
a valid JSON text is never the empty string, so it is truthy; a non-JSON
string is truthy iff non-empty. -/
def payloadTruthy : Payload → Bool
  | .jsonText _ => true
  | .notJson s => s ≠ ""

/-- The redis hash at `REDIS_ANNOTATIONS_KEY`: fields are annotation ids,
values are stored strings. -/
abbrev Store := List (String × Payload)

/-- `redis.hGet(key, field)`. -/
def hGet (st : Store) (field : String) : Option Payload :=
  (st.find? (fun e => e.1 == field)).map (fun e => e.2)

/-- `redis.hSet(key, field, value)`: after the call the hash holds exactly one
entry for `field`, with the new value; other fields are untouched. -/
def hSet (st : Store) (field : String) (v : Payload) : Store :=
  st.filter (fun e => e.1 != field) ++ [(field, v)]

/-- `redis.hDel(key, field)`: removes the field and returns the new hash
together with the number of fields removed. -/
def hDel (st : Store) (field : String) : Store × Nat :=
  (st.filter (fun e => e.1 != field),
   if st.any (fun e => e.1 == field) then 1 else 0)

/-- An object handed to `broadcastToLightcable` by a handler. -/
inductive Event where
  | add (id : String) (lngLat : List Int) (clientId : Option String)
  | update (id : String) (lngLat : List Int) (clientId : Option String)
  | remove (id : String) (clientId : Option String)
  deriving DecidableEq, Repr

/-- A redis command issued by a handler, in issue order. -/
inductive RedisCall where
  | hGetAllC
  | hGetC (field : String)
  | hSetC (field : String) (v : Payload)
  | hDelC (field : String)
  deriving Repr

/-- The `{ id, ...obj }` object sent in a successful POST/PUT response body,
where `obj` is the record object just built by the handler. -/
structure RecordOut where
  id : String
  lngLat : List Int
  updatedAt : Nat
  clientId : Option String
  deriving DecidableEq, Repr

/-- Result of one handler invocation: HTTP outcome, hash after the call,
objects broadcast, redis commands issued. -/
structure HandlerResult (Out : Type) where
  out : Out
  store : Store
  events : List Event
  calls : List RedisCall
  deriving Repr

/-- `clientId || null`: a falsy clientId (absent, or the empty string)
becomes `null`; any other string is kept. -/
def coerceClientId : Option String → Option String
  | some s => if s = "" then none else some s
  | none => none

/-- Body of `POST /annotations`. -/
structure PostBody where
  id : String
  lngLat : Option (List Int)
  clientId : Option String
  deriving DecidableEq, Repr

/-- Outcome of `POST /annotations`: 400 invalid payload, or 201 with the
stored record. -/
inductive PostOut where
  | badRequest
  | created (rec : RecordOut)
  deriving DecidableEq, Repr

/-- Handler of `POST /annotations` (upsert):
rejects when `!id || !Array.isArray(lngLat) || lngLat.length < 2`; otherwise
builds `obj = { lngLat, updatedAt: Date.now(), clientId: clientId || null }`,
stores it with `hSet`, broadcasts an `add` object, and answers 201 with
`{ id, ...obj }`. -/
def postAnnotations (now : Nat) (st : Store) (body : PostBody) :
    HandlerResult PostOut :=
  match body.lngLat with
  | none => ⟨.badRequest, st, [], []⟩
  | some l =>
    if body.id = "" ∨ l.length < 2 then ⟨.badRequest, st, [], []⟩
    else
      let cid := coerceClientId body.clientId
      let obj : RecordObj := ⟨l, now, cid⟩
      ⟨.created ⟨body.id, l, now, cid⟩,
       hSet st body.id (.jsonText (recordJson obj)),
       [.add body.id l cid],
       [.hSetC body.id (.jsonText (recordJson obj))]⟩

/-- Body of `PUT /annotations/:id` (the id arrives as a route parameter). -/
structure PutBody where
  lngLat : Option (List Int)
  clientId : Option String
  deriving DecidableEq, Repr

/-- Successful PUT response body: `{ id, ...obj, existed: !!existingRaw }`. -/
structure PutOk where
  record : RecordOut
  existed : Bool
  deriving DecidableEq, Repr

/-- Outcome of `PUT /annotations/:id`. -/
inductive PutOut where
  | badRequest
  | ok (r : PutOk)
  deriving DecidableEq, Repr

/-- Handler of `PUT /annotations/:id`:
rejects when `!Array.isArray(lngLat) || lngLat.length < 2` (note: no check on
`id` here, unlike POST); otherwise reads the prior value with `hGet` (only to
compute `existed`), stores the fresh object unconditionally with `hSet`, and
broadcasts an `update` object. -/
def putAnnotations (now : Nat) (st : Store) (id : String) (body : PutBody) :
    HandlerResult PutOut :=
  match body.lngLat with
  | none => ⟨.badRequest, st, [], []⟩
  | some l =>
    if l.length < 2 then ⟨.badRequest, st, [], []⟩
    else
      let existingRaw := hGet st id
      let cid := coerceClientId body.clientId
      let obj : RecordObj := ⟨l, now, cid⟩
      let existed := match existingRaw with
        | none => false
        | some p => payloadTruthy p
      ⟨.ok ⟨⟨id, l, now, cid⟩, existed⟩,
       hSet st id (.jsonText (recordJson obj)),
       [.update id l cid],
       [.hGetC id, .hSetC id (.jsonText (recordJson obj))]⟩

/-- Response body of `DELETE /annotations/:id`: `{ id, removed: removed > 0 }`. -/
structure DeleteOut where
  id : String
  removed : Bool
  deriving DecidableEq, Repr

/-- Handler of `DELETE /annotations/:id`: deletes the field with `hDel` and
broadcasts a `remove` object (with `clientId: null`) whether or not the field
existed. -/
def deleteAnnotations (st : Store) (id : String) : HandlerResult DeleteOut :=
  let r := hDel st id
  ⟨⟨id, decide (0 < r.2)⟩, r.1, [.remove id none], [.hDelC id]⟩

/-- JS own-property assignment on an object (modelled as its property list in
enumeration order): setting key `k` overwrites the value at an existing `k`
in place, and appends the property otherwise. -/
def objAssign (fields : List (String × Json)) (k : String) (v : Json) :
    List (String × Json) :=
  if fields.any (fun e => e.1 == k) then
    fields.map (fun e => if e.1 == k then (k, v) else e)
  else fields ++ [(k, v)]

/-- JS object spread: assign each property of `props` onto `base`, left to
right. -/
def objSpread (base props : List (String × Json)) : List (String × Json) :=
  props.foldl (fun acc e => objAssign acc e.1 e.2) base

/-- The own enumerable properties `...obj` contributes for a parsed value: an
object contributes its fields; an array contributes its elements under index
keys; a string contributes its characters under index keys; null, booleans
and numbers contribute nothing. -/
def spreadProps : Json → List (String × Json)
  | .objV fields => fields
  | .arrV xs => xs.enum.map (fun e => (toString e.1, e.2))
  | .strV s => s.data.enum.map (fun e => (toString e.1, Json.strV (String.mk [e.2])))
  | _ => []

/-- The element `{ id, ...obj }` the GET handler builds from hash field `id`
and parsed value `obj`: the `id` shorthand first, then the spread — so a
parsed object's own `id` key overwrites the field name. -/
def listEntry (id : String) (v : Json) : List (String × Json) :=
  objSpread [("id", Json.strV id)] (spreadProps v)

/-- Handler of `GET /annotations`: `hGetAll`, then for each field `JSON.parse`
the value (`null` on a parse throw), spread it behind `{ id, ... }`, and keep
the non-null results (`.filter(Boolean)` — every built object is truthy, so
exactly the parse failures are removed). -/
def listAnnotations (st : Store) : List (List (String × Json)) :=
  st.filterMap (fun e => (parsePayload e.2).map (fun v => listEntry e.1 v))

/-- Full GET handler result (issues a single `hGetAll`, changes nothing,
broadcasts nothing). -/
def getAnnotations (st : Store) : HandlerResult (List (List (String × Json))) :=
  ⟨listAnnotations st, st, [], [.hGetAllC]⟩

/-- Whether a GET result element is a record for `target`: its `id` property
holds exactly the string `target`. -/
def entryIdIs (target : String) (r : List (String × Json)) : Bool :=
  match r.lookup "id" with
  | some (Json.strV s) => s == target
  | _ => false

/-- `readyState` of a websocket: CONNECTING, OPEN, CLOSING, CLOSED. -/
inductive WsReady where
  | connecting
  | openS
  | closingS
  | closedS
  deriving DecidableEq, Repr

/-- The module-level `lcws` variable: `null`, or a socket in some
`readyState`. -/
inductive LcConn where
  | nullC
  | sock (ready : WsReady)
  deriving DecidableEq, Repr

/-- What one call to `broadcastToLightcable` does with its argument. Every
branch of the source function catches or avoids exceptions, so each call
produces exactly one of these outcomes and returns normally. -/
inductive BroadcastOutcome where
  | sent (e : Event)
  | sendErrorLogged (e : Event)
  | skippedLogged (e : Event)
  deriving DecidableEq, Repr

/-- `broadcastToLightcable(obj)`: when `lcws` is non-null and OPEN, serialize
and send, logging and swallowing a send exception; otherwise log and skip.
`sendFails` models whether `lcws.send` would throw on this call. -/
def broadcastToLightcable (conn : LcConn) (sendFails : Bool) (e : Event) :
    BroadcastOutcome :=
  if conn = .sock .openS then
    if sendFails then .sendErrorLogged e else .sent e
  else
    .skippedLogged e

/-- A handler followed by the inline broadcast of each object it emits: the
broadcast outcomes sit beside the handler result and never feed back into
it. -/
def handlePostWithBroadcast (conn : LcConn) (sendFails : Bool) (now : Nat)
    (st : Store) (body : PostBody) :
    HandlerResult PostOut × List BroadcastOutcome :=
  let r := postAnnotations now st body
  (r, r.events.map (broadcastToLightcable conn sendFails))

/-- State of the forwarder: the `lcws` variable and the delay (ms) of a
pending `setTimeout(connectLightcable, ...)`, if one is scheduled. -/
structure Forwarder where
  lcws : LcConn
  reconnectDelay : Option Nat
  deriving DecidableEq, Repr

/-- Observable happenings that drive the forwarder: the websocket events the
source attaches handlers for, and the reconnect timer firing. -/
inductive FwdEv where
  | wsOpen
  | wsClose
  | wsError
  | timerFires
  deriving DecidableEq, Repr

/-- `connectLightcable()`: returns at once when no `LIGHTCABLE_WS_URL` is
configured; otherwise replaces `lcws` with a fresh websocket, which starts in
readyState CONNECTING. -/
def connectLightcable (configured : Bool) (f : Forwarder) : Forwarder :=
  if configured then { lcws := .sock .connecting, reconnectDelay := none }
  else f

/-- One forwarder step. `open`: the transport reaches OPEN (the handler only
logs). `close`: the handler nulls `lcws` and schedules
`setTimeout(connectLightcable, 2000)`. `error`: the handler only logs — no
state change, no reconnect scheduled. Timer firing consumes the pending
timeout and runs `connectLightcable`. -/
def stepFwd (configured : Bool) (f : Forwarder) : FwdEv → Forwarder
  | .wsOpen => { f with lcws := .sock .openS }
  | .wsClose => { lcws := .nullC, reconnectDelay := some 2000 }
  | .wsError => f
  | .timerFires => connectLightcable configured { f with reconnectDelay := none }

/-- Run the forwarder over a sequence of happenings. -/
def runFwd (configured : Bool) (f : Forwarder) (evs : List FwdEv) : Forwarder :=
  evs.foldl (stepFwd configured) f

/-- JSON values, as far as the broadcast objects need them. -/
inductive JVal where
  | nullJ
  | strJ (s : String)
  | numJ (n : Int)
  | arrJ (xs : List JVal)
  deriving Repr

/-- Serialization of the `clientId` component of a broadcast object. -/
def clientIdJson : Option String → JVal
  | none => .nullJ
  | some s => .strJ s

/-- The key/value pairs of `JSON.stringify` applied to the object literal each
handler passes to `broadcastToLightcable`, in literal order:
`{ type: 'add', id, lngLat, clientId }`, `{ type: 'update', id, lngLat,
clientId }`, `{ type: 'remove', id, clientId: null }`. -/
def eventJson : Event → List (String × JVal)
  | .add id l c =>
      [("type", .strJ "add"), ("id", .strJ id),
       ("lngLat", .arrJ (l.map JVal.numJ)), ("clientId", clientIdJson c)]
  | .update id l c =>
      [("type", .strJ "update"), ("id", .strJ id),
       ("lngLat", .arrJ (l.map JVal.numJ)), ("clientId", clientIdJson c)]
  | .remove id c =>
      [("type", .strJ "remove"), ("id", .strJ id),
       ("clientId", clientIdJson c)]

/-- Whether a broadcast object is a `remove` object. -/
def Event.isRemove : Event → Bool
  | .remove _ _ => true
  | _ => false

/-! ### Helper lemmas about the redis hash model -/

lemma find?_filter_ne (st : Store) (k : String) :
    (st.filter (fun e => e.1 != k)).find? (fun e => e.1 == k) = none := by
  rw [List.find?_eq_none]
  intro x hx
  have hmem := List.mem_filter.mp hx
  simpa using hmem.2

lemma hGet_hSet_self (st : Store) (k : String) (v : Payload) :
    hGet (hSet st k v) k = some v := by
  unfold hGet hSet
  rw [List.find?_append, find?_filter_ne]
  simp [List.find?]

lemma hGet_filter_ne_self (st : Store) (k : String) :
    hGet (st.filter (fun e => e.1 != k)) k = none := by
  unfold hGet
  rw [find?_filter_ne]
  rfl

lemma hGet_isSome_iff_any (st : Store) (k : String) :
    (hGet st k).isSome ↔ st.any (fun e => e.1 == k) = true := by
  unfold hGet
  simp [List.find?_isSome]

lemma hGet_mem (st : Store) (k : String) (p : Payload)
    (h : hGet st k = some p) : ∃ e ∈ st, e.2 = p := by
  unfold hGet at h
  cases hf : st.find? (fun e => e.1 == k) with
  | none => rw [hf] at h; simp at h
  | some e =>
    rw [hf] at h
    simp at h
    exact ⟨e, List.mem_of_find?_eq_some hf, h⟩

lemma listAnnotations_append (a b : Store) :
    listAnnotations (a ++ b) = listAnnotations a ++ listAnnotations b := by
  unfold listAnnotations
  exact List.filterMap_append a b _

lemma mem_listAnnotations {st : Store} {r : List (String × Json)} :
    r ∈ listAnnotations st ↔ ∃ e ∈ st, ∃ v, parsePayload e.2 = some v ∧
      r = listEntry e.1 v := by
  unfold listAnnotations
  rw [List.mem_filterMap]
  constructor
  · rintro ⟨e, he, hfe⟩
    cases hp : parsePayload e.2 with
    | none => rw [hp] at hfe; simp at hfe
    | some v =>
      rw [hp] at hfe
      simp at hfe
      exact ⟨e, he, v, hp, hfe.symm⟩
  · rintro ⟨e, he, v, hp, hr⟩
    refine ⟨e, he, ?_⟩
    rw [hp]
    simp [hr]

lemma lookup_map_replace_self (base : List (String × Json)) (k : String)
    (v : Json) :
    (base.map (fun e => if e.1 == k then (k, v) else e)).lookup k =
      (base.lookup k).map (fun _ => v) := by
  induction base with
  | nil => simp
  | cons e rest ih =>
    obtain ⟨a, b⟩ := e
    rw [List.map_cons]
    by_cases hak : a = k
    · rw [if_pos (show ((a, b).1 == k) = true by simpa using hak)]
      simp only [List.lookup_cons, beq_self_eq_true,
        show (k == a) = true by simpa using hak.symm]
      rfl
    · rw [if_neg (show ¬((a, b).1 == k) = true by simpa using hak)]
      simp only [List.lookup_cons,
        show (k == a) = false by simpa using fun h => hak h.symm, ih]

lemma lookup_map_replace_other (base : List (String × Json)) (k k' : String)
    (v : Json) (h : k' ≠ k) :
    (base.map (fun e => if e.1 == k then (k, v) else e)).lookup k' =
      base.lookup k' := by
  induction base with
  | nil => simp
  | cons e rest ih =>
    obtain ⟨a, b⟩ := e
    rw [List.map_cons]
    by_cases hak : a = k
    · rw [if_pos (show ((a, b).1 == k) = true by simpa using hak)]
      simp only [List.lookup_cons,
        show (k' == k) = false by simpa using h,
        show (k' == a) = false by simpa using fun hh => h (hh.trans hak), ih]
    · rw [if_neg (show ¬((a, b).1 == k) = true by simpa using hak)]
      simp only [List.lookup_cons, ih]

lemma lookup_objAssign_self (base : List (String × Json)) (k : String)
    (v : Json) :
    (objAssign base k v).lookup k = some v := by
  unfold objAssign
  by_cases hany : base.any (fun e => e.1 == k)
  · rw [if_pos hany, lookup_map_replace_self]
    rcases List.any_eq_true.mp hany with ⟨e, he, hek⟩
    have hsome : (base.lookup k).isSome := by
      rw [List.lookup_isSome_iff]
      exact ⟨e, he, by simpa using (show e.1 = k by simpa using hek).symm⟩
    cases hlk : base.lookup k with
    | none => rw [hlk] at hsome; simp at hsome
    | some b => rfl
  · rw [if_neg hany, List.lookup_append]
    have hnone : base.lookup k = none := by
      rw [List.lookup_eq_none_iff]
      intro p hp
      have hnp : ¬(p.1 == k) = true := fun hh =>
        hany (List.any_eq_true.mpr ⟨p, hp, hh⟩)
      simpa using fun hh => hnp (by simpa using hh.symm)
    rw [hnone]
    simp

lemma lookup_objAssign_other (base : List (String × Json)) (k k' : String)
    (v : Json) (h : k' ≠ k) :
    (objAssign base k v).lookup k' = base.lookup k' := by
  unfold objAssign
  by_cases hany : base.any (fun e => e.1 == k)
  · rw [if_pos hany]
    exact lookup_map_replace_other base k k' v h
  · rw [if_neg hany, List.lookup_append]
    have hsingle : (([(k, v)] : List (String × Json)).lookup k') = none := by
      simp [List.lookup_cons, show (k' == k) = false by simpa using h]
    rw [hsingle]
    cases base.lookup k' <;> rfl

lemma lookup_objSpread (props base : List (String × Json)) (k : String) :
    (objSpread base props).lookup k =
      match props.reverse.find? (fun p => p.1 == k) with
      | some p => some p.2
      | none => base.lookup k := by
  induction props generalizing base with
  | nil => rfl
  | cons q rest ih =>
    show (objSpread (objAssign base q.1 q.2) rest).lookup k = _
    rw [ih, List.reverse_cons, List.find?_append]
    cases hf : rest.reverse.find? (fun p => p.1 == k) with
    | some p => rfl
    | none =>
      by_cases hqk : q.1 = k
      · rw [List.find?_cons_of_pos _ (by simpa using hqk)]
        show (objAssign base q.1 q.2).lookup k = some q.2
        rw [← hqk]
        exact lookup_objAssign_self base q.1 q.2
      · rw [List.find?_cons_of_neg _ (by simpa using hqk)]
        show (objAssign base q.1 q.2).lookup k = base.lookup k
        exact lookup_objAssign_other base q.1 k q.2 (fun hh => hqk hh.symm)

lemma lookup_listEntry (f : String) (v : Json) :
    (listEntry f v).lookup "id" =
      match (spreadProps v).reverse.find? (fun p => p.1 == "id") with
      | some p => some p.2
      | none => some (Json.strV f) := by
  unfold listEntry
  rw [lookup_objSpread]
  cases (spreadProps v).reverse.find? (fun p => p.1 == "id") with
  | some p => rfl
  | none => rfl

lemma entryIdIs_listEntry_of_ne (target f : String) (v : Json)
    (hf : f ≠ target)
    (hv : ∀ p ∈ spreadProps v, p.1 = "id" → p.2 ≠ Json.strV target) :
    entryIdIs target (listEntry f v) = false := by
  unfold entryIdIs
  rw [lookup_listEntry]
  cases hfind : (spreadProps v).reverse.find? (fun p => p.1 == "id") with
  | none =>
    show (f == target) = false
    simpa using hf
  | some p =>
    obtain ⟨p1, p2⟩ := p
    have hp1 : p1 = "id" := by simpa using List.find?_some hfind
    have hpm : (p1, p2) ∈ spreadProps v :=
      List.mem_reverse.mp (List.mem_of_find?_eq_some hfind)
    have hne := hv (p1, p2) hpm hp1
    cases p2 with
    | strV s =>
      show (s == target) = false
      simpa using fun h => hne (by rw [h])
    | nullV => rfl
    | boolV b => rfl
    | numV n => rfl
    | arrV xs => rfl
    | objV fs => rfl

lemma entryIdIs_listEntry_record (target : String) (o : RecordObj) :
    entryIdIs target (listEntry target (recordJson o)) = true := by
  unfold entryIdIs
  rw [lookup_listEntry]
  have hnone : (spreadProps (recordJson o)).reverse.find?
      (fun p => p.1 == "id") = none := by
    rfl
  rw [hnone]
  show (target == target) = true
  simp

/-! ### Claims -/

/-- C1, counterexample: with a stored payload at another field that is valid
JSON smuggling an own `id` key equal to the target id, `create_or_replace`
followed by `list` yields two records whose `id` property equals the given
id — the spread `{ id, ...obj }` lets the payload's `id` overwrite the field
name — so the result does not contain exactly one such record, although the
given id is non-empty and the position has 2 elements. -/
theorem C1_smuggled_id_two_records :
    ((listAnnotations (postAnnotations 5
          [("b", Payload.jsonText (Json.objV [("id", Json.strV "a1"),
              ("lngLat", Json.arrV [Json.numV 10, Json.numV 20])]))]
          ⟨"a1", some [10, 20], none⟩).store).filter
        (entryIdIs "a1")).length = 2 ∧
    ("a1" : String) ≠ "" ∧ 2 ≤ ([10, 20] : List Int).length :=
  ⟨rfl, by decide, by decide⟩

/-- C1, amended: for every non-empty `id` and position array of length at
least 2, from any store state in which no other entry's payload parses to a
JSON value contributing an own `id` property equal to the given id (in
particular any state produced solely by the store's own writes, which never
store an `id` key), `create_or_replace(id, position)` followed by `list`
yields exactly one element whose `id` property equals the given id, and that
element's `lngLat` property is exactly the input array. -/
theorem C1_create_then_list_no_smuggled_id (now : Nat) (st : Store)
    (id : String) (l : List Int) (c : Option String)
    (hid : id ≠ "") (hl : 2 ≤ l.length)
    (hsafe : ∀ e ∈ st, e.1 ≠ id → ∀ v, parsePayload e.2 = some v →
        ∀ p ∈ spreadProps v, p.1 = "id" → p.2 ≠ Json.strV id) :
    (listAnnotations (postAnnotations now st ⟨id, some l, c⟩).store).filter
        (entryIdIs id) =
      [[("id", Json.strV id),
        ("lngLat", Json.arrV (l.map Json.numV)),
        ("updatedAt", Json.numV (now : Int)),
        ("clientId", optStrJson (coerceClientId c))]] := by
  have hcond : ¬(id = "" ∨ l.length < 2) := by
    push_neg
    exact ⟨hid, by omega⟩
  simp only [postAnnotations, if_neg hcond]
  unfold hSet
  rw [listAnnotations_append, List.filter_append]
  have h1 : (listAnnotations (st.filter (fun e => e.1 != id))).filter
      (entryIdIs id) = [] := by
    rw [List.filter_eq_nil_iff]
    intro r hr
    rcases mem_listAnnotations.mp hr with ⟨e, he, v, hv, hre⟩
    have hmem : e ∈ st := (List.mem_filter.mp he).1
    have hne : e.1 ≠ id := by simpa using (List.mem_filter.mp he).2
    subst hre
    simp [entryIdIs_listEntry_of_ne id e.1 v hne (hsafe e hmem hne v hv)]
  rw [h1, List.nil_append]
  show (List.filter (entryIdIs id)
      [listEntry id (recordJson ⟨l, now, coerceClientId c⟩)]) = _
  rw [List.filter_cons,
    entryIdIs_listEntry_record id ⟨l, now, coerceClientId c⟩]
  rfl

theorem C1_create_then_list_no_smuggled_id_witness :
    (listAnnotations (postAnnotations 5 [("b", Payload.notJson "oops")]
          ⟨"a1", some [10, 20], none⟩).store).filter (entryIdIs "a1") =
      [[("id", Json.strV "a1"),
        ("lngLat", Json.arrV [Json.numV 10, Json.numV 20]),
        ("updatedAt", Json.numV 5),
        ("clientId", optStrJson (coerceClientId none))]] :=
  C1_create_then_list_no_smuggled_id 5 [("b", Payload.notJson "oops")]
    "a1" [10, 20] none (by decide) (by decide)
    (by
      intro e he hne v hv
      rw [List.mem_singleton] at he
      subst he
      simp [parsePayload] at hv)

/-- C2: every successful write (POST upsert or PUT update) stores a record
whose `updatedAt` is exactly the `Date.now()` of that write, for every prior
hash content — so it is never preserved from the record previously stored
under the same id. -/
theorem C2_updatedAt_stamped_now (now : Nat) (st : Store) (b : PostBody)
    (id : String) (pb : PutBody) (l l2 : List Int)
    (hbl : b.lngLat = some l) (hid : b.id ≠ "") (hl : 2 ≤ l.length)
    (hpl : pb.lngLat = some l2) (hl2 : 2 ≤ l2.length) :
    hGet (postAnnotations now st b).store b.id =
        some (.jsonText (recordJson ⟨l, now, coerceClientId b.clientId⟩)) ∧
    hGet (putAnnotations now st id pb).store id =
        some (.jsonText (recordJson ⟨l2, now, coerceClientId pb.clientId⟩)) := by
  obtain ⟨bid, blng, bc⟩ := b
  obtain ⟨plng, pc⟩ := pb
  simp only at hbl hpl hid
  subst hbl hpl
  constructor
  · have hcond : ¬(bid = "" ∨ l.length < 2) := by
      push_neg
      exact ⟨hid, by omega⟩
    simp only [postAnnotations, if_neg hcond]
    exact hGet_hSet_self st bid _
  · have hcond : ¬(l2.length < 2) := by omega
    simp only [putAnnotations, if_neg hcond]
    exact hGet_hSet_self st id _

theorem C2_updatedAt_stamped_now_witness :
    hGet (postAnnotations 9
          [("a1", Payload.jsonText (recordJson ⟨[1, 2], 3, none⟩))]
          ⟨"a1", some [5, 6], none⟩).store "a1" =
        some (.jsonText (recordJson ⟨[5, 6], 9, coerceClientId none⟩)) ∧
    hGet (putAnnotations 9
          [("a1", Payload.jsonText (recordJson ⟨[1, 2], 3, none⟩))] "a1"
          ⟨some [7, 8], none⟩).store "a1" =
        some (.jsonText (recordJson ⟨[7, 8], 9, coerceClientId none⟩)) :=
  C2_updatedAt_stamped_now 9
    [("a1", Payload.jsonText (recordJson ⟨[1, 2], 3, none⟩))]
    ⟨"a1", some [5, 6], none⟩ "a1" ⟨some [7, 8], none⟩ [5, 6] [7, 8]
    rfl (by decide) (by decide) rfl (by decide)

/-- C3, counterexample: the PUT handler does not apply the same validation as
POST — it accepts the empty id (POST rejects it) and writes. -/
theorem C3_put_skips_id_validation :
    (putAnnotations 0 [] "" ⟨some [1, 2], none⟩).out ≠ PutOut.badRequest ∧
    (putAnnotations 0 [] "" ⟨some [1, 2], none⟩).store ≠ ([] : Store) ∧
    (postAnnotations 0 [] ⟨"", some [1, 2], none⟩).out = PostOut.badRequest := by
  refine ⟨?_, ?_, rfl⟩
  · show PutOut.ok ⟨⟨"", [1, 2], 0, none⟩, false⟩ ≠ PutOut.badRequest
    intro h
    exact PutOut.noConfusion h
  · show [("", Payload.jsonText (recordJson ⟨[1, 2], 0, none⟩))] ≠ ([] : Store)
    exact List.cons_ne_nil _ _

/-- C3, amended: `update(id, position, clientId?)` validates only the position
(array of length at least 2, else InvalidArgument) — the non-empty-id check is
performed only by create; on a valid position it reports `existed = true`
exactly when an entry for `id` was present before the call (on a hash whose
entries were all written by the store itself), and unconditionally overwrites
the stored record whether or not one existed. -/
theorem C3_update_upsert_semantics (now : Nat) (st : Store) (id : String)
    (pb : PutBody)
    (hwf : ∀ e ∈ st, ∃ o, e.2 = Payload.jsonText (recordJson o)) :
    ((putAnnotations now st id pb).out = PutOut.badRequest ↔
      ∀ l, pb.lngLat = some l → l.length < 2) ∧
    ∀ l, pb.lngLat = some l → 2 ≤ l.length →
      (putAnnotations now st id pb).store =
          hSet st id (.jsonText (recordJson ⟨l, now, coerceClientId pb.clientId⟩)) ∧
      ∃ r, (putAnnotations now st id pb).out = PutOut.ok r ∧
        r.existed = (hGet st id).isSome ∧
        r.record = ⟨id, l, now, coerceClientId pb.clientId⟩ := by
  obtain ⟨plng, pc⟩ := pb
  cases plng with
  | none =>
    refine ⟨⟨fun _ l hl => by simp at hl, fun _ => rfl⟩, ?_⟩
    intro l hl
    simp at hl
  | some l =>
    by_cases hlen : l.length < 2
    · constructor
      · simp only [putAnnotations, if_pos hlen]
        constructor
        · intro _ l' hl'
          simp only [Option.some.injEq] at hl'
          subst hl'
          exact hlen
        · intro _
          trivial
      · intro l' hl' hge
        simp only [Option.some.injEq] at hl'
        subst hl'
        omega
    · have hex : (match hGet st id with
          | none => false
          | some p => payloadTruthy p) = (hGet st id).isSome := by
        cases hg : hGet st id with
        | none => rfl
        | some p =>
          rcases hGet_mem st id p hg with ⟨e, he, hep⟩
          rcases hwf e he with ⟨o, ho⟩
          rw [← hep, ho]
          rfl
      constructor
      · simp only [putAnnotations, if_neg hlen]
        constructor
        · intro h
          simp at h
        · intro hall
          exact absurd (hall l rfl) hlen
      · intro l' hl' hge
        simp only [Option.some.injEq] at hl'
        subst hl'
        refine ⟨?_, ?_⟩
        · simp only [putAnnotations, if_neg hlen]
        · simp only [putAnnotations, if_neg hlen]
          refine ⟨_, rfl, ?_, rfl⟩
          exact hex

theorem C3_update_upsert_semantics_witness :
    (putAnnotations 3
        [("b", Payload.jsonText (recordJson ⟨[1, 2], 0, none⟩))] "a1"
        ⟨some [9, 9], none⟩).store =
      hSet [("b", Payload.jsonText (recordJson ⟨[1, 2], 0, none⟩))] "a1"
        (.jsonText (recordJson ⟨[9, 9], 3, coerceClientId none⟩)) :=
  ((C3_update_upsert_semantics 3
      [("b", Payload.jsonText (recordJson ⟨[1, 2], 0, none⟩))]
      "a1" ⟨some [9, 9], none⟩
      (by
        intro e he
        simp only [List.mem_singleton] at he
        exact ⟨⟨[1, 2], 0, none⟩, by rw [he]⟩)).2
    [9, 9] rfl (by decide)).1

/-- C4: `delete(id)` reports `removed = true` exactly when an entry for `id`
was present (and afterwards none is), reports `removed = false` with a normal
response when none was present, and in both cases hands the forwarder exactly
one `remove` event with `clientId: null`. -/
theorem C4_delete_removed_iff_existed (st : Store) (id : String) :
    ((deleteAnnotations st id).out.removed = true ↔
        (hGet st id).isSome = true) ∧
    (deleteAnnotations st id).out.id = id ∧
    hGet (deleteAnnotations st id).store id = none ∧
    (deleteAnnotations st id).events = [Event.remove id none] := by
  refine ⟨?_, rfl, ?_, rfl⟩
  · rw [hGet_isSome_iff_any]
    show decide (0 < (hDel st id).2) = true ↔ _
    unfold hDel
    by_cases h : st.any (fun e => e.1 == id) = true
    · simp [h]
    · simp [h]
  · show hGet (hDel st id).1 id = none
    unfold hDel
    exact hGet_filter_ne_self st id

/-- C5, counterexample: a stored payload that is valid JSON but not a valid
record — the JSON text `null` — is not dropped by `list`: `JSON.parse`
succeeds, the spread of null is a no-op, and `{ id }` survives
`.filter(Boolean)`, so the invalid entry is kept (in mangled form) in the
result instead of being dropped. -/
theorem C5_json_non_record_kept :
    listAnnotations [("x", Payload.jsonText Json.nullV)] =
        [[("id", Json.strV "x")]] ∧
    (listAnnotations [("x", Payload.jsonText Json.nullV)]).length = 1 :=
  ⟨rfl, rfl⟩

/-- C5, amended: `list` never fails on malformed entries, and it drops
exactly the entries whose stored payload is not valid JSON (`JSON.parse`
throws): every valid-JSON entry — whether or not it is a valid record —
contributes the element `{ id, ...parsed }` to the result (a parsed object's
own `id` key overwriting the hash field name), and every element of the
result arises that way from a valid-JSON entry. -/
theorem C5_list_drops_exactly_non_json (st : Store) :
    (∀ id v, (id, Payload.jsonText v) ∈ st →
        listEntry id v ∈ listAnnotations st) ∧
    ∀ r ∈ listAnnotations st, ∃ id v,
        (id, Payload.jsonText v) ∈ st ∧ r = listEntry id v := by
  constructor
  · intro id v hm
    exact mem_listAnnotations.mpr ⟨(id, Payload.jsonText v), hm, v, rfl, rfl⟩
  · intro r hr
    rcases mem_listAnnotations.mp hr with ⟨e, he, v, hv, hre⟩
    obtain ⟨e1, e2⟩ := e
    cases e2 with
    | jsonText w =>
      simp only [parsePayload, Option.some.injEq] at hv
      subst hv
      exact ⟨e1, w, he, hre⟩
    | notJson s => simp [parsePayload] at hv

theorem C5_list_drops_exactly_non_json_witness :
    listEntry "a" (recordJson ⟨[1, 2], 7, none⟩) ∈
      listAnnotations
        [("a", Payload.jsonText (recordJson ⟨[1, 2], 7, none⟩)),
         ("b", Payload.notJson "oops")] :=
  (C5_list_drops_exactly_non_json
      [("a", Payload.jsonText (recordJson ⟨[1, 2], 7, none⟩)),
       ("b", Payload.notJson "oops")]).1
    "a" (recordJson ⟨[1, 2], 7, none⟩) (List.Mem.head _)

/-- C6: a POST or PUT whose `lngLat` is not an array or has fewer than 2
elements answers 400 with the hash unchanged, no broadcast, and an empty
redis command trace — the rejection happens before any backend interaction. -/
theorem C6_invalid_position_rejected_no_backend (now : Nat) (st : Store)
    (b : PostBody) (id : String) (pb : PutBody)
    (hb : ∀ l, b.lngLat = some l → l.length < 2)
    (hp : ∀ l, pb.lngLat = some l → l.length < 2) :
    postAnnotations now st b = ⟨.badRequest, st, [], []⟩ ∧
    putAnnotations now st id pb = ⟨.badRequest, st, [], []⟩ := by
  obtain ⟨bid, blng, bc⟩ := b
  obtain ⟨plng, pc⟩ := pb
  constructor
  · cases blng with
    | none => rfl
    | some l =>
      have hl := hb l rfl
      simp only [postAnnotations, if_pos (Or.inr hl)]
  · cases plng with
    | none => rfl
    | some l =>
      have hl := hp l rfl
      simp only [putAnnotations, if_pos hl]

theorem C6_invalid_position_witness :
    postAnnotations 4 [("a", Payload.jsonText (recordJson ⟨[1, 2], 0, none⟩))]
        ⟨"a1", some [5], none⟩ =
      ⟨.badRequest, [("a", Payload.jsonText (recordJson ⟨[1, 2], 0, none⟩))],
        [], []⟩ ∧
    putAnnotations 4 [("a", Payload.jsonText (recordJson ⟨[1, 2], 0, none⟩))]
        "a1" ⟨none, none⟩ =
      ⟨.badRequest, [("a", Payload.jsonText (recordJson ⟨[1, 2], 0, none⟩))],
        [], []⟩ :=
  C6_invalid_position_rejected_no_backend 4
    [("a", Payload.jsonText (recordJson ⟨[1, 2], 0, none⟩))]
    ⟨"a1", some [5], none⟩ "a1" ⟨none, none⟩
    (by
      intro l hl
      simp only [Option.some.injEq] at hl
      subst hl
      decide)
    (by intro l hl; simp at hl)

/-- C7, counterexample: a concrete broadcast object is serialized with keys
`type`, `id`, `lngLat`, `clientId` — there is no `kind` key and no `position`
key, contrary to the claimed wire shape. -/
theorem C7_wire_field_names :
    (eventJson (Event.add "a1" [10, 20] none)).map Prod.fst =
        ["type", "id", "lngLat", "clientId"] ∧
    "kind" ∉ (eventJson (Event.add "a1" [10, 20] none)).map Prod.fst ∧
    "position" ∉ (eventJson (Event.add "a1" [10, 20] none)).map Prod.fst := by
  decide

/-- C7, amended: every object handed to `broadcastToLightcable` is serialized
with keys `type`, `id`, `lngLat`, `clientId` in that order (`lngLat` absent
exactly on remove objects); `type` holds one of the strings `add`, `update`,
`remove`; `id` holds a string; `clientId` holds a string or null. -/
theorem C7_event_wire_shape (e : Event) :
    ((eventJson e).map Prod.fst = ["type", "id", "lngLat", "clientId"] ∨
      (eventJson e).map Prod.fst = ["type", "id", "clientId"]) ∧
    ("lngLat" ∈ (eventJson e).map Prod.fst ↔ Event.isRemove e = false) ∧
    (∃ k, (eventJson e).lookup "type" = some (JVal.strJ k) ∧
        (k = "add" ∨ k = "update" ∨ k = "remove")) ∧
    (∃ i, (eventJson e).lookup "id" = some (JVal.strJ i)) ∧
    ((eventJson e).lookup "clientId" = some JVal.nullJ ∨
      ∃ s, (eventJson e).lookup "clientId" = some (JVal.strJ s)) := by
  cases e with
  | add id l c =>
    refine ⟨Or.inl rfl, by simp [eventJson, Event.isRemove],
      ⟨"add", by simp [eventJson, List.lookup], Or.inl rfl⟩,
      ⟨id, by simp [eventJson, List.lookup]⟩, ?_⟩
    cases c with
    | none => exact Or.inl (by simp [eventJson, List.lookup, clientIdJson])
    | some s =>
      exact Or.inr ⟨s, by simp [eventJson, List.lookup, clientIdJson]⟩
  | update id l c =>
    refine ⟨Or.inl rfl, by simp [eventJson, Event.isRemove],
      ⟨"update", by simp [eventJson, List.lookup], Or.inr (Or.inl rfl)⟩,
      ⟨id, by simp [eventJson, List.lookup]⟩, ?_⟩
    cases c with
    | none => exact Or.inl (by simp [eventJson, List.lookup, clientIdJson])
    | some s =>
      exact Or.inr ⟨s, by simp [eventJson, List.lookup, clientIdJson]⟩
  | remove id c =>
    refine ⟨Or.inr rfl, by simp [eventJson, Event.isRemove],
      ⟨"remove", by simp [eventJson, List.lookup], Or.inr (Or.inr rfl)⟩,
      ⟨id, by simp [eventJson, List.lookup]⟩, ?_⟩
    cases c with
    | none => exact Or.inl (by simp [eventJson, List.lookup, clientIdJson])
    | some s =>
      exact Or.inr ⟨s, by simp [eventJson, List.lookup, clientIdJson]⟩

/-- C8: a broadcast never feeds back into the store operation that triggered
it — the handler result is unchanged by the connection state and by send
failures — and each call to `broadcastToLightcable` returns normally with
exactly one outcome: with an OPEN socket the object is sent, a send exception
being logged and swallowed; in every other state (socket null, connecting,
closing or closed — including when no endpoint is configured, in which case
the socket stays null) the object is dropped with only a log, carried into no
queue and retried by nothing. -/
theorem C8_notify_swallows_and_drops (conn : LcConn) (sendFails : Bool)
    (now : Nat) (st : Store) (b : PostBody) (e : Event) :
    (handlePostWithBroadcast conn sendFails now st b).1 =
        postAnnotations now st b ∧
    (conn = LcConn.sock WsReady.openS →
        broadcastToLightcable conn sendFails e =
          if sendFails then .sendErrorLogged e else .sent e) ∧
    (conn ≠ LcConn.sock WsReady.openS →
        broadcastToLightcable conn sendFails e = .skippedLogged e) := by
  refine ⟨rfl, ?_, ?_⟩
  · intro h
    simp [broadcastToLightcable, h]
  · intro h
    simp [broadcastToLightcable, h]

theorem C8_notify_swallows_and_drops_witness :
    LcConn.nullC ≠ LcConn.sock WsReady.openS ∧
    broadcastToLightcable LcConn.nullC false (Event.remove "a1" none) =
      BroadcastOutcome.skippedLogged (Event.remove "a1" none) :=
  ⟨by decide,
   (C8_notify_swallows_and_drops LcConn.nullC false 0 [] ⟨"a1", some [1, 2], none⟩
      (Event.remove "a1" none)).2.2 (by decide)⟩

/-- C9, counterexample: an `error` report from the transport, with an endpoint
configured and the socket OPEN, leaves the forwarder unchanged — no transition
to disconnected and no reconnect scheduled (the error handler only logs; only
`close` triggers the reconnect). -/
theorem C9_error_event_no_reconnect :
    stepFwd true ⟨LcConn.sock WsReady.openS, none⟩ FwdEv.wsError =
        ⟨LcConn.sock WsReady.openS, none⟩ ∧
    (stepFwd true ⟨LcConn.sock WsReady.openS, none⟩
        FwdEv.wsError).reconnectDelay = none := by
  decide

/-- C9, amended: whenever the transport reports closed, after any history of
events, the forwarder nulls its socket and schedules a reconnect after the
fixed 2000 ms delay — the delay never grows and no retry count is tracked, so
the cycle repeats indefinitely; when the timer fires with an endpoint
configured, a fresh connection attempt starts (socket back in CONNECTING). An
error report by itself is only logged and triggers neither. -/
theorem C9_close_schedules_fixed_reconnect (configured : Bool) (f : Forwarder)
    (evs : List FwdEv) :
    runFwd configured f (evs ++ [FwdEv.wsClose]) =
        ⟨LcConn.nullC, some 2000⟩ ∧
    ∀ g : Forwarder, stepFwd true g FwdEv.timerFires =
        ⟨LcConn.sock WsReady.connecting, none⟩ := by
  constructor
  · unfold runFwd
    rw [List.foldl_append]
    rfl
  · intro g
    rfl

/-- C10: on both write paths, a falsy `clientId` (absent, or the empty
string) is coerced to null in the stored record, in the response record and
in the broadcast object. -/
theorem C10_falsy_clientId_to_null (now : Nat) (st : Store) (id : String)
    (l : List Int) (c : Option String)
    (hc : c = none ∨ c = some "") (hid : id ≠ "") (hl : 2 ≤ l.length) :
    (postAnnotations now st ⟨id, some l, c⟩).out =
        PostOut.created ⟨id, l, now, none⟩ ∧
    (postAnnotations now st ⟨id, some l, c⟩).events = [Event.add id l none] ∧
    hGet (postAnnotations now st ⟨id, some l, c⟩).store id =
        some (.jsonText (recordJson ⟨l, now, none⟩)) ∧
    (putAnnotations now st id ⟨some l, c⟩).events =
        [Event.update id l none] ∧
    hGet (putAnnotations now st id ⟨some l, c⟩).store id =
        some (.jsonText (recordJson ⟨l, now, none⟩)) := by
  have hcc : coerceClientId c = none := by
    rcases hc with h | h <;> subst h <;> rfl
  have hcond : ¬(id = "" ∨ l.length < 2) := by
    push_neg
    exact ⟨hid, by omega⟩
  have hlen : ¬(l.length < 2) := by omega
  refine ⟨?_, ?_, ?_, ?_, ?_⟩
  · simp only [postAnnotations, if_neg hcond, hcc]
  · simp only [postAnnotations, if_neg hcond, hcc]
  · simp only [postAnnotations, if_neg hcond, hcc]
    exact hGet_hSet_self st id _
  · simp only [putAnnotations, if_neg hlen, hcc]
  · simp only [putAnnotations, if_neg hlen, hcc]
    exact hGet_hSet_self st id _

theorem C10_falsy_clientId_witness :
    (postAnnotations 2 [] ⟨"a1", some [3, 4], some ""⟩).out =
        PostOut.created ⟨"a1", [3, 4], 2, none⟩ ∧
    (postAnnotations 2 [] ⟨"a1", some [3, 4], some ""⟩).events =
        [Event.add "a1" [3, 4] none] ∧
    hGet (postAnnotations 2 [] ⟨"a1", some [3, 4], some ""⟩).store "a1" =
        some (.jsonText (recordJson ⟨[3, 4], 2, none⟩)) ∧
    (putAnnotations 2 [] "a1" ⟨some [3, 4], some ""⟩).events =
        [Event.update "a1" [3, 4] none] ∧
    hGet (putAnnotations 2 [] "a1" ⟨some [3, 4], some ""⟩).store "a1" =
        some (.jsonText (recordJson ⟨[3, 4], 2, none⟩)) :=
  C10_falsy_clientId_to_null 2 [] "a1" [3, 4] (some "")
    (Or.inr rfl) (by decide) (by decide)

end MapSync
